import Mathlib

/-!
# Verification of the Jellyfin watch-state migration scripts

Shallow embedding of the watch-state migration pipeline of the repository
(`export-scripts/user-watched-export.py`, `export-scripts/password-extract.py`,
`import-scripts/user-watched-import.py`).  Strings are modelled as `List Char`;
Python `str.replace` is modelled by `replaceAll` below (leftmost, non-overlapping,
all occurrences).  SQLite tables are modelled as Lean lists of rows; the
destination `UserDatas` table, whose schema is external to the repository, is
modelled from the spec as a finite map keyed by `(Key, UserId)`.
-/

/-- Strings as lists of characters. -/
abbrev Str := List Char

/-- Fuelled scanner behind `replaceAll`: scan left to right; at each position,
if `pat` is a prefix of the rest, emit `rep` and skip past the match, else keep
the character.  The fuel only makes the recursion structural; with fuel at
least the length of the string it never runs out (`replFuel_congr`). -/
def replFuel (pat rep : Str) : Nat → Str → Str
  | 0, s => s
  | _, [] => []
  | n + 1, c :: rest =>
    if pat.isPrefixOf (c :: rest) then
      rep ++ replFuel pat rep n (List.drop (pat.length - 1) rest)
    else
      c :: replFuel pat rep n rest

/-- One pass of Python `str.replace(pat, rep)` for a non-empty pattern:
leftmost, non-overlapping, replaces every occurrence. -/
def replAux (pat rep s : Str) : Str :=
  replFuel pat rep s.length s

/-- Python `s.replace(pat, rep)`.  Python treats an empty pattern specially
(it interleaves the replacement); the scripts only use non-empty patterns, for
which `replaceAll` is `replAux`.  For an empty pattern we return the input. -/
def replaceAll (pat rep s : Str) : Str :=
  if pat.isEmpty then s else replAux pat rep s

/-- Does `pat` occur as a contiguous substring of `s`? -/
def occursIn (pat : Str) : Str → Bool
  | [] => pat.isEmpty
  | c :: rest => pat.isPrefixOf (c :: rest) || occursIn pat rest

/-- The source-side path pattern of `translate_path`: the Python literal
`"F:\\Media\\"`, i.e. the nine characters `F:\Media\`. -/
def srcPat : Str := ['F', ':', '\\', 'M', 'e', 'd', 'i', 'a', '\\']

/-- The replacement of `translate_path`: the Python literal `"/media/"`. -/
def dstRep : Str := ['/', 'm', 'e', 'd', 'i', 'a', '/']

/-- `translate_path` from `import-scripts/user-watched-import.py`:
`path.replace("F:\\Media\\", "/media/")` followed by `path.replace("\\", "/")`. -/
def translate_path (windows_path : Str) : Str :=
  replaceAll ['\\'] ['/'] (replaceAll srcPat dstRep windows_path)

/-- SQL `REPLACE(Key, '-', '')` as used in both scripts: strip every dash. -/
def canonicalizeKey (k : Str) : Str :=
  replaceAll ['-'] [] k

/-- A character of the hexadecimal alphabet (as checked per character in the
round-trip statements). -/
def isHexDigit (c : Char) : Bool :=
  c.isDigit || (decide ('a' ≤ c) && decide (c ≤ 'f')) || (decide ('A' ≤ c) && decide (c ≤ 'F'))

/-- The Python f-string of the importer:
`f"{k[:8]}-{k[8:12]}-{k[12:16]}-{k[16:20]}-{k[20:]}"` — reinsert dashes in
8-4-4-4-12 groups. -/
def formatKey (k : Str) : Str :=
  k.take 8 ++ '-' :: (k.drop 8).take 4 ++ '-' :: (k.drop 12).take 4
    ++ '-' :: (k.drop 16).take 4 ++ '-' :: k.drop 20

/-- A row of the source `TypedBaseItems` catalog: `Name`, `Path` (nullable),
`PresentationUniqueKey`. -/
structure CatalogEntry where
  name : Str
  path : Option Str
  presentationUniqueKey : Str
deriving DecidableEq

/-- A row of the source `UserDatas` state table: `Key`, `UserId` (a reference to
`Users.InternalId`), `PlaybackPositionTicks`, `LastPlayedDate`. -/
structure StateRow where
  key : Str
  userId : Nat
  playbackPositionTicks : Int
  lastPlayedDate : Str
deriving DecidableEq

/-- A row of the source `jf.Users` table: `InternalId`, `Username`. -/
structure SourceUser where
  internalId : Nat
  username : Str
deriving DecidableEq

/-- One WatchRecord of the intermediate artifact `watched_data.json`, with the
fields the exporter emits (`ItemName`, `Path`, `PlaybackPositionTicks`,
`LastPlayedDate`, `Username`, `PresentationUniqueKey`). -/
structure WatchRecord where
  itemName : Str
  path : Str
  playbackPositionTicks : Int
  lastPlayedDate : Str
  username : Str
  presentationUniqueKey : Str
deriving DecidableEq

/-- The three source relations read by `user-watched-export.py`. -/
structure SourceStore where
  catalog : List CatalogEntry
  userDatas : List StateRow
  users : List SourceUser
deriving DecidableEq

/-- The extraction query of `user-watched-export.py`:
`TypedBaseItems i JOIN UserDatas d ON i.PresentationUniqueKey = REPLACE(d.Key,'-','')
JOIN jf.Users u ON d.UserId = u.InternalId WHERE i.Path IS NOT NULL`,
with the SELECT list producing one artifact record per joined row.  Modelled as
a nested-loop join over the three relations. -/
def extractWatched (src : SourceStore) : List WatchRecord :=
  src.catalog.flatMap fun i =>
    match i.path with
    | none => []
    | some p =>
      src.userDatas.flatMap fun d =>
        src.users.filterMap fun u =>
          if i.presentationUniqueKey = canonicalizeKey d.key ∧ d.userId = u.internalId then
            some { itemName := i.name, path := p,
                   playbackPositionTicks := d.playbackPositionTicks,
                   lastPlayedDate := d.lastPlayedDate,
                   username := u.username,
                   presentationUniqueKey := canonicalizeKey d.key }
          else none

/-- A row of the destination `Users` table: `Username`, `Id`. -/
structure DestUser where
  username : Str
  id : Str
deriving DecidableEq

/-- `get_user_map` from `user-watched-import.py`: a dict built from
`SELECT Username, Id FROM Users`, later rows overwriting earlier ones on a
duplicate username (Python dict assignment). -/
def get_user_map (users : List DestUser) : Str → Option Str :=
  users.foldl (fun m u => fun name => if name = u.username then some u.id else m name)
    (fun _ => none)

/-- `get_new_presentation_key` from `user-watched-import.py`:
`SELECT PresentationUniqueKey FROM TypedBaseItems WHERE Path = ?` with
`fetchone()` — the first matching row's key, or `None` when there is no match.
The model fixes the cursor's row order to the list order. -/
def get_new_presentation_key (cat : List CatalogEntry) (file_path : Str) : Option Str :=
  (cat.find? fun e => e.path = some file_path).map (·.presentationUniqueKey)

/-- The field tuple the importer writes into the destination `UserDatas` row
besides the key pair: `(Played, PlayCount, IsFavorite, PlaybackPositionTicks,
LastPlayedDate, AudioStreamIndex, SubtitleStreamIndex)`. -/
structure DestRow where
  played : Int
  playCount : Int
  isFavorite : Int
  playbackPositionTicks : Int
  lastPlayedDate : Str
  audioStreamIndex : Int
  subtitleStreamIndex : Int
deriving DecidableEq

/-- Identity of a destination watch row: `(Key, UserId)` — the formatted
fingerprint and the destination user id. -/
abbrev DKey := Str × Str

/-- Modelled from the spec: the destination state store (`UserDatas` in the
destination `library.db`, whose schema is not part of the repository) is the
external interface "upsert row keyed by (formattedFingerprint,
destinationUserId)" — a finite map from `DKey` to the remaining row fields. -/
abbrev DestStore := DKey → Option DestRow

/-- Modelled from the spec: `INSERT OR REPLACE` into a table uniquely keyed by
`(Key, UserId)` replaces the row with that key pair and leaves every other row
unchanged. -/
def upsert (s : DestStore) (k : DKey) (r : DestRow) : DestStore :=
  fun k2 => if k2 = k then some r else s k2

/-- The per-record step of the importer's loop (`user-watched-import.py`,
`main`): map the username through `user_map` (skip on Python-falsy result:
missing or empty), translate the path and look up the destination presentation
key (skip on falsy result), and otherwise produce the `(Key, UserId)` pair and
the row written by the `INSERT OR REPLACE`. -/
def recordWrite (um : Str → Option Str) (cat : List CatalogEntry)
    (r : WatchRecord) : Option (DKey × DestRow) :=
  match um r.username with
  | none => none
  | some uid =>
    if uid = [] then none
    else
      match get_new_presentation_key cat (translate_path r.path) with
      | none => none
      | some pk =>
        if pk = [] then none
        else
          some ((formatKey pk, uid),
            { played := 1, playCount := 1, isFavorite := 0,
              playbackPositionTicks := r.playbackPositionTicks,
              lastPlayedDate := r.lastPlayedDate,
              audioStreamIndex := -1, subtitleStreamIndex := -1 })

/-- The sequence of upserts a run performs, in artifact order: one per
non-skipped record. -/
def writesOf (um : Str → Option Str) (cat : List CatalogEntry)
    (rs : List WatchRecord) : List (DKey × DestRow) :=
  rs.filterMap (recordWrite um cat)

/-- Apply a sequence of upserts to the destination store, in order. -/
def applyWrites (ws : List (DKey × DestRow)) (s : DestStore) : DestStore :=
  ws.foldl (fun st kv => upsert st kv.1 kv.2) s

/-- A full (error-free) Loader run over the artifact: every non-skipped record
is upserted, then the transaction commits. -/
def load (um : Str → Option Str) (cat : List CatalogEntry)
    (rs : List WatchRecord) (s : DestStore) : DestStore :=
  applyWrites (writesOf um cat rs) s

/-- The run-end summary of the importer: the final store together with
`migrated_count`, the only counter the script maintains and the only number its
closing `Migration complete!` message reports. -/
def runSummary (um : Str → Option Str) (cat : List CatalogEntry)
    (rs : List WatchRecord) (s : DestStore) : DestStore × Nat :=
  (load um cat rs s, (writesOf um cat rs).length)

/-- Observable outcome of a Loader run under possible upsert failures: the
committed destination store, the migrated count, and whether the run ended in
the `except sqlite3.Error` branch. -/
structure RunOutcome where
  store : DestStore
  migrated : Nat
  errored : Bool

/-- Modelled from the spec: SQLite transaction semantics of the destination
connection (§4.3, §6 — not part of the repository's own code).  Upserts
accumulate in an uncommitted `pending` store; a failing upsert raises, the
`except` branch rolls the transaction back (committed store stays `s0`), and
only a run with no failure commits `pending`.  `failOn` is the failure oracle
for individual `INSERT OR REPLACE` statements. -/
def loadRunAux (failOn : DKey × DestRow → Bool) (um : Str → Option Str)
    (cat : List CatalogEntry) (s0 : DestStore) :
    List WatchRecord → DestStore → Nat → RunOutcome
  | [], pending, n => ⟨pending, n, false⟩
  | r :: rs, pending, n =>
    match recordWrite um cat r with
    | none => loadRunAux failOn um cat s0 rs pending n
    | some w =>
      if failOn w then ⟨s0, n, true⟩
      else loadRunAux failOn um cat s0 rs (upsert pending w.1 w.2) (n + 1)

/-- A Loader run with the failure oracle `failOn`, started on store `s`. -/
def loadRun (failOn : DKey × DestRow → Bool) (um : Str → Option Str)
    (cat : List CatalogEntry) (rs : List WatchRecord) (s : DestStore) : RunOutcome :=
  loadRunAux failOn um cat s rs s 0

/-- A row of the source `Users` table as read by `password-extract.py`:
`Username`, `Password`. -/
structure SourceCredRow where
  username : Str
  password : Str
deriving DecidableEq

/-- An entry of the `jellyfin_users.json` artifact written by
`password-extract.py`: `username` and `password_hash`. -/
structure ExportedUser where
  username : Str
  password_hash : Str
deriving DecidableEq

/-- The distinguished system account name, lower case. -/
def jellyfinName : Str := ['j', 'e', 'l', 'l', 'y', 'f', 'i', 'n']

/-- Python `username.lower()`, modelled on the ASCII range (`Char.toLower`
lowers exactly the letters `A`–`Z`; the usernames at issue are ASCII). -/
def lowerStr (s : Str) : Str := s.map Char.toLower

/-- The export loop of `export_user_data` in `password-extract.py`: every
`Users` row is emitted except those with `username.lower() == 'jellyfin'`. -/
def export_user_data (rows : List SourceCredRow) : List ExportedUser :=
  rows.filterMap fun r =>
    if lowerStr r.username = jellyfinName then none
    else some { username := r.username, password_hash := r.password }

/-- Left-biased choice on `Option`, used to state which write a store lookup
observes. -/
def orO {α : Type} : Option α → Option α → Option α
  | some v, _ => some v
  | none, b => b

/-- The last write in a write sequence that targets key `k`, if any. -/
def lastWrite (ws : List (DKey × DestRow)) (k : DKey) : Option DestRow :=
  ws.foldl (fun acc kv => if kv.1 = k then some kv.2 else acc) none

/-! ## Helper lemmas about the string operations -/

theorem replFuel_nil (pat rep : Str) (n : Nat) : replFuel pat rep n [] = [] := by
  cases n <;> rfl

theorem replFuel_congr (pat rep : Str) :
    ∀ (n m : Nat) (s : Str), s.length ≤ n → s.length ≤ m →
      replFuel pat rep n s = replFuel pat rep m s := by
  intro n
  induction n with
  | zero =>
    intro m s hn _
    have hs : s = [] := List.eq_nil_of_length_eq_zero (Nat.le_zero.mp hn)
    subst hs
    simp [replFuel_nil]
  | succ n ih =>
    intro m s hn hm
    cases s with
    | nil => simp [replFuel_nil]
    | cons c rest =>
      cases m with
      | zero => simp at hm
      | succ m =>
        simp only [List.length_cons, Nat.succ_le_succ_iff] at hn hm
        show replFuel pat rep (n + 1) (c :: rest) = replFuel pat rep (m + 1) (c :: rest)
        simp only [replFuel]
        by_cases h : pat.isPrefixOf (c :: rest)
        · simp only [if_pos h]
          have hd : (List.drop (pat.length - 1) rest).length ≤ rest.length := by
            simp [List.length_drop]
          rw [ih m (List.drop (pat.length - 1) rest) (Nat.le_trans hd hn) (Nat.le_trans hd hm)]
        · simp only [if_neg h]
          rw [ih m rest hn hm]

theorem replAux_nil (pat rep : Str) : replAux pat rep [] = [] := rfl

theorem replAux_cons_pos (pat rep : Str) (c : Char) (rest : Str)
    (h : pat.isPrefixOf (c :: rest)) :
    replAux pat rep (c :: rest) = rep ++ replAux pat rep (List.drop (pat.length - 1) rest) := by
  show replFuel pat rep (rest.length + 1) (c :: rest) = _
  simp only [replFuel, if_pos h]
  congr 1
  exact replFuel_congr pat rep rest.length _ _
    (Nat.le_trans (by simp [List.length_drop]) (Nat.le_refl _)) (Nat.le_refl _)

theorem replAux_cons_neg (pat rep : Str) (c : Char) (rest : Str)
    (h : ¬ pat.isPrefixOf (c :: rest)) :
    replAux pat rep (c :: rest) = c :: replAux pat rep rest := by
  show replFuel pat rep (rest.length + 1) (c :: rest) = _
  simp only [replFuel, if_neg h]
  rfl

-- Basic sanity checks of the embedding on concrete inputs.
example :
    translate_path ['F', ':', '\\', 'M', 'e', 'd', 'i', 'a', '\\', 'a', '\\', 'b']
      = ['/', 'm', 'e', 'd', 'i', 'a', '/', 'a', '/', 'b'] := by decide
example :
    translate_path ['C', ':', '\\', 'x'] = ['C', ':', '/', 'x'] := by decide

theorem replAux_eq_self_of_not_occurs (pat rep : Str) :
    ∀ s : Str, occursIn pat s = false → replAux pat rep s = s := by
  intro s
  induction s with
  | nil => intro _; rfl
  | cons c rest ih =>
    intro h
    simp only [occursIn, Bool.or_eq_false_iff] at h
    rw [replAux_cons_neg pat rep c rest (by simp [h.1]), ih h.2]

theorem not_occurs_of_not_mem (pat : Str) (b : Char) (hb : b ∈ pat) :
    ∀ s : Str, b ∉ s → occursIn pat s = false := by
  intro s
  induction s with
  | nil =>
    intro _
    have : pat ≠ [] := by intro h; rw [h] at hb; simp at hb
    simpa [occursIn, List.isEmpty_iff]
  | cons c rest ih =>
    intro h
    have hpre : ¬ pat.isPrefixOf (c :: rest) = true := by
      intro hp
      have : pat ⊆ c :: rest := (List.isPrefixOf_iff_prefix.mp hp).subset
      exact h (this hb)
    have hrest : b ∉ rest := fun hr => h (List.mem_cons_of_mem c hr)
    simp [occursIn, hpre, ih hrest]

theorem replAux_eq_self_of_not_mem (pat rep : Str) (b : Char) (hb : b ∈ pat)
    (s : Str) (hs : b ∉ s) : replAux pat rep s = s :=
  replAux_eq_self_of_not_occurs pat rep s (not_occurs_of_not_mem pat b hb s hs)

theorem replAux_single_cons (b : Char) (rep : Str) (c : Char) (rest : Str) :
    replAux [b] rep (c :: rest) =
      if c = b then rep ++ replAux [b] rep rest else c :: replAux [b] rep rest := by
  by_cases h : c = b
  · subst h
    rw [replAux_cons_pos [c] rep c rest (by simp [List.isPrefixOf])]
    simp
  · rw [replAux_cons_neg [b] rep c rest
      (by simp [List.isPrefixOf]; exact fun hh => h hh.symm)]
    simp [h]

theorem mem_replAux_single (b : Char) (rep : Str) :
    ∀ (s : Str) (c : Char), c ∈ replAux [b] rep s → c ∈ rep ∨ (c ∈ s ∧ c ≠ b) := by
  intro s
  induction s with
  | nil => intro c h; simp [replAux_nil] at h
  | cons d rest ih =>
    intro c h
    rw [replAux_single_cons] at h
    by_cases hd : d = b
    · rw [if_pos hd] at h
      rcases List.mem_append.mp h with h1 | h2
      · exact Or.inl h1
      · rcases ih c h2 with h3 | ⟨h4, h5⟩
        · exact Or.inl h3
        · exact Or.inr ⟨List.mem_cons_of_mem d h4, h5⟩
    · rw [if_neg hd] at h
      rcases List.mem_cons.mp h with h1 | h2
      · exact Or.inr ⟨by simp [h1], h1 ▸ hd⟩
      · rcases ih c h2 with h3 | ⟨h4, h5⟩
        · exact Or.inl h3
        · exact Or.inr ⟨List.mem_cons_of_mem d h4, h5⟩

theorem backslash_not_mem_sepFix (s : Str) : '\\' ∉ replaceAll ['\\'] ['/'] s := by
  intro h
  have hne : (['\\'] : Str).isEmpty = false := by decide
  rw [replaceAll, hne] at h
  simp only [Bool.false_eq_true, if_false] at h
  rcases mem_replAux_single '\\' ['/'] s '\\' h with h1 | ⟨_, h2⟩
  · simp at h1
  · exact h2 rfl

theorem canonicalizeKey_nil : canonicalizeKey [] = [] := rfl

theorem canonicalizeKey_cons (c : Char) (rest : Str) :
    canonicalizeKey (c :: rest) =
      if c = '-' then canonicalizeKey rest else c :: canonicalizeKey rest := by
  have hne : (['-'] : Str).isEmpty = false := by decide
  simp only [canonicalizeKey, replaceAll, hne, Bool.false_eq_true, if_false]
  rw [replAux_single_cons]
  simp

theorem canonicalizeKey_dash_cons (rest : Str) :
    canonicalizeKey ('-' :: rest) = canonicalizeKey rest := by
  rw [canonicalizeKey_cons]; simp

theorem canonicalizeKey_append (a : Str) :
    ∀ b : Str, canonicalizeKey (a ++ b) = canonicalizeKey a ++ canonicalizeKey b := by
  induction a with
  | nil => intro b; simp [canonicalizeKey_nil]
  | cons c rest ih =>
    intro b
    rw [List.cons_append, canonicalizeKey_cons, canonicalizeKey_cons]
    by_cases h : c = '-'
    · simp [h, ih]
    · simp [h, ih]

theorem canonicalizeKey_eq_self (s : Str) (h : '-' ∉ s) : canonicalizeKey s = s := by
  induction s with
  | nil => rfl
  | cons c rest ih =>
    rw [canonicalizeKey_cons]
    have hc : c ≠ '-' := fun hc => h (by simp [hc])
    rw [if_neg hc, ih (fun hr => h (List.mem_cons_of_mem c hr))]

theorem hex_ne_dash {c : Char} (h : isHexDigit c = true) : c ≠ '-' := by
  intro heq
  subst heq
  exact absurd h (by decide)

theorem no_dash_of_hex {s : Str} (h : ∀ c ∈ s, isHexDigit c = true) : '-' ∉ s :=
  fun hm => hex_ne_dash (h '-' hm) rfl

theorem take_parts_concat (k : Str) :
    k.take 8 ++ (k.drop 8).take 4 ++ (k.drop 12).take 4 ++ (k.drop 16).take 4 ++ k.drop 20
      = k := by
  have h12 : k.take 8 ++ (k.drop 8).take 4 = k.take 12 := by
    have := List.take_add k 8 4
    simpa using this.symm
  have h16 : k.take 12 ++ (k.drop 12).take 4 = k.take 16 := by
    have := List.take_add k 12 4
    simpa using this.symm
  have h20 : k.take 16 ++ (k.drop 16).take 4 = k.take 20 := by
    have := List.take_add k 16 4
    simpa using this.symm
  calc k.take 8 ++ (k.drop 8).take 4 ++ (k.drop 12).take 4 ++ (k.drop 16).take 4 ++ k.drop 20
      = k.take 12 ++ (k.drop 12).take 4 ++ (k.drop 16).take 4 ++ k.drop 20 := by rw [h12]
    _ = k.take 16 ++ (k.drop 16).take 4 ++ k.drop 20 := by rw [h16]
    _ = k.take 20 ++ k.drop 20 := by rw [h20]
    _ = k := List.take_append_drop 20 k

theorem canon_format (k : Str) (hk : ∀ c ∈ k, isHexDigit c = true) :
    canonicalizeKey (formatKey k) = k := by
  have hsub : ∀ s : Str, s ⊆ k → '-' ∉ s := fun s hs hm =>
    no_dash_of_hex (fun c hc => hk c (hs hc)) hm
  have h1 : canonicalizeKey (k.take 8) = k.take 8 :=
    canonicalizeKey_eq_self _ (hsub _ (List.take_subset 8 k))
  have h2 : canonicalizeKey ((k.drop 8).take 4) = (k.drop 8).take 4 :=
    canonicalizeKey_eq_self _
      (hsub _ (List.Subset.trans (List.take_subset 4 _) (List.drop_subset 8 k)))
  have h3 : canonicalizeKey ((k.drop 12).take 4) = (k.drop 12).take 4 :=
    canonicalizeKey_eq_self _
      (hsub _ (List.Subset.trans (List.take_subset 4 _) (List.drop_subset 12 k)))
  have h4 : canonicalizeKey ((k.drop 16).take 4) = (k.drop 16).take 4 :=
    canonicalizeKey_eq_self _
      (hsub _ (List.Subset.trans (List.take_subset 4 _) (List.drop_subset 16 k)))
  have h5 : canonicalizeKey (k.drop 20) = k.drop 20 :=
    canonicalizeKey_eq_self _ (hsub _ (List.drop_subset 20 k))
  calc canonicalizeKey (formatKey k)
      = canonicalizeKey (k.take 8) ++ (canonicalizeKey ((k.drop 8).take 4)
          ++ (canonicalizeKey ((k.drop 12).take 4) ++ (canonicalizeKey ((k.drop 16).take 4)
          ++ canonicalizeKey (k.drop 20)))) := by
        simp only [formatKey, canonicalizeKey_append, canonicalizeKey_dash_cons,
          List.append_assoc]
    _ = k := by
        rw [h1, h2, h3, h4, h5]
        have := take_parts_concat k
        simpa [List.append_assoc] using this

theorem format_parts (a b c d e : Str) (ha : a.length = 8) (hb : b.length = 4)
    (hc : c.length = 4) (hd : d.length = 4) :
    formatKey (a ++ (b ++ (c ++ (d ++ e))))
      = a ++ '-' :: (b ++ '-' :: (c ++ '-' :: (d ++ '-' :: e))) := by
  have hab : (a ++ b).length = 12 := by simp [ha, hb]
  have habc : (a ++ b ++ c).length = 16 := by simp [ha, hb, hc]
  have habcd : (a ++ b ++ c ++ d).length = 20 := by simp [ha, hb, hc, hd]
  have hgr12 : a ++ (b ++ (c ++ (d ++ e))) = (a ++ b) ++ (c ++ (d ++ e)) := by
    simp [List.append_assoc]
  have hgr16 : a ++ (b ++ (c ++ (d ++ e))) = (a ++ b ++ c) ++ (d ++ e) := by
    simp [List.append_assoc]
  have hgr20 : a ++ (b ++ (c ++ (d ++ e))) = (a ++ b ++ c ++ d) ++ e := by
    simp [List.append_assoc]
  have h8t : (a ++ (b ++ (c ++ (d ++ e)))).take 8 = a := List.take_left' ha
  have h8d : (a ++ (b ++ (c ++ (d ++ e)))).drop 8 = b ++ (c ++ (d ++ e)) :=
    List.drop_left' ha
  have h12d : (a ++ (b ++ (c ++ (d ++ e)))).drop 12 = c ++ (d ++ e) := by
    rw [hgr12]; exact List.drop_left' hab
  have h16d : (a ++ (b ++ (c ++ (d ++ e)))).drop 16 = d ++ e := by
    rw [hgr16]; exact List.drop_left' habc
  have h20d : (a ++ (b ++ (c ++ (d ++ e)))).drop 20 = e := by
    rw [hgr20]; exact List.drop_left' habcd
  rw [formatKey, h8t, h8d, h12d, h16d, h20d,
    List.take_left' hb, List.take_left' hc, List.take_left' hd]
  simp [List.append_assoc]

/-! ## Helper lemmas about the Loader's write sequence -/

theorem orO_assoc {α : Type} (a b c : Option α) : orO (orO a b) c = orO a (orO b c) := by
  cases a <;> rfl

theorem foldl_lastWrite (k : DKey) (ws : List (DKey × DestRow)) :
    ∀ acc : Option DestRow,
      ws.foldl (fun acc kv => if kv.1 = k then some kv.2 else acc) acc
        = orO (lastWrite ws k) acc := by
  induction ws with
  | nil => intro acc; rfl
  | cons kv ws ih =>
    intro acc
    show ws.foldl _ (if kv.1 = k then some kv.2 else acc) = orO (lastWrite (kv :: ws) k) acc
    have hcons : lastWrite (kv :: ws) k
        = orO (lastWrite ws k) (if kv.1 = k then some kv.2 else none) := by
      show ws.foldl _ (if kv.1 = k then some kv.2 else none) = _
      exact ih _
    rw [ih _, hcons, orO_assoc]
    by_cases h : kv.1 = k
    · simp only [if_pos h]
      cases lastWrite ws k <;> rfl
    · simp only [if_neg h]
      cases lastWrite ws k <;> rfl

theorem applyWrites_apply (ws : List (DKey × DestRow)) :
    ∀ (s : DestStore) (k : DKey), applyWrites ws s k = orO (lastWrite ws k) (s k) := by
  induction ws with
  | nil => intro s k; rfl
  | cons kv ws ih =>
    intro s k
    show applyWrites ws (upsert s kv.1 kv.2) k = orO (lastWrite (kv :: ws) k) (s k)
    have hcons : lastWrite (kv :: ws) k
        = orO (lastWrite ws k) (if kv.1 = k then some kv.2 else none) := by
      show ws.foldl _ (if kv.1 = k then some kv.2 else none) = _
      exact foldl_lastWrite k ws _
    rw [ih, hcons, orO_assoc]
    congr 1
    show upsert s kv.1 kv.2 k = orO (if kv.1 = k then some kv.2 else none) (s k)
    rw [upsert]
    by_cases h : k = kv.1
    · rw [if_pos h, if_pos h.symm]
      rfl
    · rw [if_neg h, if_neg (fun hh => h hh.symm)]
      rfl

theorem loadRunAux_errored_store (failOn : DKey × DestRow → Bool) (um : Str → Option Str)
    (cat : List CatalogEntry) (s0 : DestStore) :
    ∀ (rs : List WatchRecord) (pending : DestStore) (n : Nat),
      (loadRunAux failOn um cat s0 rs pending n).errored = true →
        (loadRunAux failOn um cat s0 rs pending n).store = s0 := by
  intro rs
  induction rs with
  | nil =>
    intro pending n h
    simp [loadRunAux] at h
  | cons r rs ih =>
    intro pending n h
    rw [loadRunAux] at h ⊢
    cases hw : recordWrite um cat r with
    | none =>
      simp only [hw] at h ⊢
      exact ih pending n h
    | some w =>
      simp only [hw] at h ⊢
      by_cases hf : failOn w
      · rw [if_pos hf]
      · rw [if_neg hf] at h ⊢
        exact ih _ _ h

/-! ## Claim theorems -/

/-- Claim C1: running the Loader twice consecutively on the same intermediate
artifact against the same initial destination state store yields, after the
second run, a destination state identical to the state after the first run:
`load (load s artifact) artifact = load s artifact` for every user map, every
destination catalog, every artifact and every initial store; the store is keyed
by `(formattedFingerprint, destinationUserId)`, so the rerun creates no
additional rows. -/
theorem c1_loader_idempotent (um : Str → Option Str) (cat : List CatalogEntry)
    (rs : List WatchRecord) (s : DestStore) :
    load um cat rs (load um cat rs s) = load um cat rs s := by
  funext k
  simp only [load, applyWrites_apply]
  cases lastWrite (writesOf um cat rs) k <;> rfl

/-- Claim C3 (counterexample): the importer's `translate_path` does not match
the source pattern only at the start of the path.  The concrete path
`X\F:\Media\a` does not begin with the pattern `F:\Media\`, yet its
translation is not the input with backslashes replaced by forward slashes
(the code yields `X//media/a`, separator-only normalization yields
`X/F:/Media/a`). -/
theorem c3_counterexample :
    srcPat.isPrefixOf ['X', '\\', 'F', ':', '\\', 'M', 'e', 'd', 'i', 'a', '\\', 'a'] = false
    ∧ translate_path ['X', '\\', 'F', ':', '\\', 'M', 'e', 'd', 'i', 'a', '\\', 'a']
        ≠ replaceAll ['\\'] ['/'] ['X', '\\', 'F', ':', '\\', 'M', 'e', 'd', 'i', 'a', '\\', 'a']
    ∧ translate_path ['X', '\\', 'F', ':', '\\', 'M', 'e', 'd', 'i', 'a', '\\', 'a']
        = ['X', '/', '/', 'm', 'e', 'd', 'i', 'a', '/', 'a'] := by
  refine ⟨by decide, by decide, by decide⟩

/-- Claim C3 (amended): `translate_path` is a total function (it terminates on
every input and raises nothing); the substitution replaces every occurrence of
the source pattern anywhere in the path (Python `str.replace`), not only a
leading prefix; and for every path in which the source pattern does not occur
at all, the output equals the input with every backslash replaced by a forward
slash and no other change. -/
theorem c3_translate_no_match (p : Str) (h : occursIn srcPat p = false) :
    translate_path p = replaceAll ['\\'] ['/'] p := by
  have h1 : replaceAll srcPat dstRep p = p := by
    rw [replaceAll, replAux_eq_self_of_not_occurs srcPat dstRep p h]
    exact ite_self p
  rw [translate_path, h1]

/-- Witness for C3: a concrete path without any occurrence of the source
pattern, translated to itself with separators normalized. -/
theorem c3_translate_no_match_witness :
    occursIn srcPat ['C', ':', '\\', 'x'] = false
    ∧ translate_path ['C', ':', '\\', 'x'] = replaceAll ['\\'] ['/'] ['C', ':', '\\', 'x'] :=
  ⟨by decide, c3_translate_no_match ['C', ':', '\\', 'x'] (by decide)⟩

/-- Claim C10: path translation is idempotent — for every input path `p`,
`translate_path (translate_path p) = translate_path p`: the first application
removes every backslash, the source pattern itself contains backslashes, so a
second application changes nothing. -/
theorem c10_translate_idempotent (p : Str) :
    translate_path (translate_path p) = translate_path p := by
  have hq : '\\' ∉ translate_path p := by
    rw [translate_path]
    exact backslash_not_mem_sepFix _
  have h1 : replaceAll srcPat dstRep (translate_path p) = translate_path p := by
    rw [replaceAll, replAux_eq_self_of_not_mem srcPat dstRep '\\' (by decide) _ hq]
    exact ite_self _
  have h2 : replaceAll ['\\'] ['/'] (translate_path p) = translate_path p := by
    rw [replaceAll, replAux_eq_self_of_not_mem ['\\'] ['/'] '\\' (by decide) _ hq]
    exact ite_self _
  calc translate_path (translate_path p)
      = replaceAll ['\\'] ['/'] (replaceAll srcPat dstRep (translate_path p)) := rfl
    _ = replaceAll ['\\'] ['/'] (translate_path p) := by rw [h1]
    _ = translate_path p := h2

/-- Claim C4: for every undashed 32-hex-character fingerprint `k`,
`format (canonicalize (format k)) = format k`; and for every dashed input
already in 8-4-4-4-12 hex grouping (`a-b-c-d-e` with part lengths 8, 4, 4, 4,
12), canonicalizing then formatting reproduces the same dashed string. -/
theorem c4_fingerprint_roundtrip (k a b c d e : Str)
    (hk : ∀ ch ∈ k, isHexDigit ch = true) (hk32 : k.length = 32)
    (ha : a.length = 8) (hb : b.length = 4) (hc : c.length = 4) (hd : d.length = 4)
    (he : e.length = 12)
    (hah : ∀ ch ∈ a, isHexDigit ch = true) (hbh : ∀ ch ∈ b, isHexDigit ch = true)
    (hch : ∀ ch ∈ c, isHexDigit ch = true) (hdh : ∀ ch ∈ d, isHexDigit ch = true)
    (heh : ∀ ch ∈ e, isHexDigit ch = true) :
    formatKey (canonicalizeKey (formatKey k)) = formatKey k
    ∧ formatKey (canonicalizeKey (a ++ '-' :: (b ++ '-' :: (c ++ '-' :: (d ++ '-' :: e)))))
        = a ++ '-' :: (b ++ '-' :: (c ++ '-' :: (d ++ '-' :: e))) := by
  have hk32use : k.length = 32 := hk32
  have heuse : e.length = 12 := he
  constructor
  · rw [canon_format k hk]
  · have hcanon : canonicalizeKey (a ++ '-' :: (b ++ '-' :: (c ++ '-' :: (d ++ '-' :: e))))
        = a ++ (b ++ (c ++ (d ++ e))) := by
      simp only [canonicalizeKey_append, canonicalizeKey_dash_cons,
        canonicalizeKey_eq_self a (no_dash_of_hex hah),
        canonicalizeKey_eq_self b (no_dash_of_hex hbh),
        canonicalizeKey_eq_self c (no_dash_of_hex hch),
        canonicalizeKey_eq_self d (no_dash_of_hex hdh),
        canonicalizeKey_eq_self e (no_dash_of_hex heh)]
    rw [hcanon, format_parts a b c d e ha hb hc hd]

/-- Witness for C4: the round trip evaluated at a concrete 32-hex fingerprint
and a concrete dashed 8-4-4-4-12 input. -/
theorem c4_fingerprint_roundtrip_witness :
    formatKey (canonicalizeKey (formatKey (List.replicate 32 'a')))
        = formatKey (List.replicate 32 'a')
    ∧ formatKey (canonicalizeKey (List.replicate 8 '0' ++ '-' :: (List.replicate 4 '1'
          ++ '-' :: (List.replicate 4 '2' ++ '-' :: (List.replicate 4 '3'
          ++ '-' :: List.replicate 12 '4')))))
        = List.replicate 8 '0' ++ '-' :: (List.replicate 4 '1'
          ++ '-' :: (List.replicate 4 '2' ++ '-' :: (List.replicate 4 '3'
          ++ '-' :: List.replicate 12 '4'))) :=
  c4_fingerprint_roundtrip (List.replicate 32 'a') (List.replicate 8 '0')
    (List.replicate 4 '1') (List.replicate 4 '2') (List.replicate 4 '3')
    (List.replicate 12 '4') (by decide) (by decide) (by decide) (by decide)
    (by decide) (by decide) (by decide) (by decide) (by decide) (by decide)
    (by decide) (by decide)

/-- Claim C2 (counterexample): the watched-data extractor applies no exclusion
of the distinguished system account.  A concrete source store in which the
`Jellyfin` user owns a watch-state row produces an intermediate artifact
containing a WatchRecord with that username. -/
theorem c2_counterexample :
    ({ itemName := ['E'], path := ['/', 'p'], playbackPositionTicks := 5,
       lastPlayedDate := ['t'], username := ['J', 'e', 'l', 'l', 'y', 'f', 'i', 'n'],
       presentationUniqueKey := ['k'] } : WatchRecord)
      ∈ extractWatched
          ⟨[{ name := ['E'], path := some ['/', 'p'], presentationUniqueKey := ['k'] }],
           [{ key := ['k'], userId := 7, playbackPositionTicks := 5, lastPlayedDate := ['t'] }],
           [{ internalId := 7, username := ['J', 'e', 'l', 'l', 'y', 'f', 'i', 'n'] }]⟩
    ∧ lowerStr ['J', 'e', 'l', 'l', 'y', 'f', 'i', 'n'] = jellyfinName := by
  refine ⟨by decide, by decide⟩

/-- Claim C2 (amended): the system-account exclusion is applied only by the
user-credentials extractor (`password-extract.py`): no entry of its artifact
has a lowercased username equal to `jellyfin`.  The watched-data extractor
applies no such exclusion (see the counterexample). -/
theorem c2_password_export_excludes_jellyfin (rows : List SourceCredRow) (u : ExportedUser)
    (hu : u ∈ export_user_data rows) : lowerStr u.username ≠ jellyfinName := by
  rw [export_user_data, List.mem_filterMap] at hu
  obtain ⟨r, _, hr⟩ := hu
  by_cases h : lowerStr r.username = jellyfinName
  · rw [if_pos h] at hr
    exact absurd hr (by simp)
  · rw [if_neg h] at hr
    rw [← Option.some.inj hr]
    exact h

/-- Witness for C2: a concrete non-excluded user is exported and its lowercased
name is not `jellyfin`. -/
theorem c2_password_export_excludes_jellyfin_witness :
    (⟨['a'], ['p']⟩ : ExportedUser) ∈ export_user_data [⟨['a'], ['p']⟩]
    ∧ lowerStr ['a'] ≠ jellyfinName :=
  ⟨by decide, c2_password_export_excludes_jellyfin [⟨['a'], ['p']⟩] ⟨['a'], ['p']⟩ (by decide)⟩

/-- Claim C5: if any single upsert fails during the Loader's commit phase, the
whole batch is discarded and the destination state store is left exactly as it
was before the run (the run reports the error: `errored = true`). -/
theorem c5_failed_run_rolls_back (failOn : DKey × DestRow → Bool) (um : Str → Option Str)
    (cat : List CatalogEntry) (rs : List WatchRecord) (s : DestStore)
    (h : (loadRun failOn um cat rs s).errored = true) :
    (loadRun failOn um cat rs s).store = s :=
  loadRunAux_errored_store failOn um cat s rs s 0 h

/-- Witness for C5: a concrete run in which the only upsert fails reports the
error and leaves the store equal to the initial store. -/
theorem c5_failed_run_rolls_back_witness :
    (loadRun (fun _ => true) (get_user_map [⟨['u'], ['i']⟩])
        [⟨[], some ['/', 'a'], ['k']⟩] [⟨['n'], ['/', 'a'], 5, ['t'], ['u'], ['k']⟩]
        (fun _ => none)).errored = true
    ∧ (loadRun (fun _ => true) (get_user_map [⟨['u'], ['i']⟩])
        [⟨[], some ['/', 'a'], ['k']⟩] [⟨['n'], ['/', 'a'], 5, ['t'], ['u'], ['k']⟩]
        (fun _ => none)).store = (fun _ => none) :=
  ⟨rfl, c5_failed_run_rolls_back (fun _ => true) (get_user_map [⟨['u'], ['i']⟩])
    [⟨[], some ['/', 'a'], ['k']⟩] [⟨['n'], ['/', 'a'], 5, ['t'], ['u'], ['k']⟩]
    (fun _ => none) rfl⟩

/-- Claim C6: for every WatchRecord that passes both Loader precondition checks
(username maps to a truthy destination user id, destination fingerprint
resolves to a truthy key), the row written under `(formatKey pk, uid)` has
`Played = 1`, `PlayCount = 1`, `IsFavorite = 0`, `AudioStreamIndex = -1`,
`SubtitleStreamIndex = -1`, and carries `PlaybackPositionTicks` and
`LastPlayedDate` over from the record unmodified. -/
theorem c6_fixed_fields (um : Str → Option Str) (cat : List CatalogEntry)
    (r : WatchRecord) (s : DestStore) (uid pk : Str)
    (hu : um r.username = some uid) (hu0 : uid ≠ [])
    (hp : get_new_presentation_key cat (translate_path r.path) = some pk) (hp0 : pk ≠ []) :
    load um cat [r] s (formatKey pk, uid)
      = some { played := 1, playCount := 1, isFavorite := 0,
               playbackPositionTicks := r.playbackPositionTicks,
               lastPlayedDate := r.lastPlayedDate,
               audioStreamIndex := -1, subtitleStreamIndex := -1 } := by
  have hw : recordWrite um cat r
      = some ((formatKey pk, uid),
          { played := 1, playCount := 1, isFavorite := 0,
            playbackPositionTicks := r.playbackPositionTicks,
            lastPlayedDate := r.lastPlayedDate,
            audioStreamIndex := -1, subtitleStreamIndex := -1 }) := by
    simp only [recordWrite, hu, hp, if_neg hu0, if_neg hp0]
  have hws : writesOf um cat [r]
      = [((formatKey pk, uid),
          { played := 1, playCount := 1, isFavorite := 0,
            playbackPositionTicks := r.playbackPositionTicks,
            lastPlayedDate := r.lastPlayedDate,
            audioStreamIndex := -1, subtitleStreamIndex := -1 })] := by
    simp [writesOf, hw]
  rw [load, hws]
  simp [applyWrites, upsert]

/-- Witness for C6: a concrete record passing both checks is written with the
fixed field values and the carried-over position and timestamp. -/
theorem c6_fixed_fields_witness :
    load (get_user_map [⟨['u'], ['i']⟩]) [⟨[], some ['/', 'a'], ['k']⟩]
        [⟨['n'], ['/', 'a'], 5, ['t'], ['u'], ['k']⟩] (fun _ => none)
        (formatKey ['k'], ['i'])
      = some { played := 1, playCount := 1, isFavorite := 0,
               playbackPositionTicks := 5, lastPlayedDate := ['t'],
               audioStreamIndex := -1, subtitleStreamIndex := -1 } :=
  c6_fixed_fields (get_user_map [⟨['u'], ['i']⟩]) [⟨[], some ['/', 'a'], ['k']⟩]
    ⟨['n'], ['/', 'a'], 5, ['t'], ['u'], ['k']⟩ (fun _ => none) ['i'] ['k']
    (by decide) (by decide) (by decide) (by decide)

/-- Claim C7 (counterexample): the extractor's filter is `Path IS NOT NULL`
only; a catalog entry whose recorded path is the empty (non-NULL) string is
not excluded — a concrete source store with such an entry yields a WatchRecord
with an empty `sourcePath`. -/
theorem c7_counterexample :
    ({ itemName := ['E'], path := [], playbackPositionTicks := 5, lastPlayedDate := ['t'],
       username := ['u'], presentationUniqueKey := ['k'] } : WatchRecord)
      ∈ extractWatched
          ⟨[{ name := ['E'], path := some [], presentationUniqueKey := ['k'] }],
           [{ key := ['k'], userId := 7, playbackPositionTicks := 5, lastPlayedDate := ['t'] }],
           [{ internalId := 7, username := ['u'] }]⟩ := by
  decide

/-- Claim C7 (amended): the extractor excludes every catalog entry with a NULL
path: each WatchRecord in the artifact originates from a catalog entry whose
path is non-NULL and equal to the record's `sourcePath`.  An empty-string path
is not excluded (see the counterexample). -/
theorem c7_nonnull_path_origin (src : SourceStore) (r : WatchRecord)
    (hr : r ∈ extractWatched src) :
    ∃ e, e ∈ src.catalog ∧ e.path = some r.path := by
  rw [extractWatched, List.mem_flatMap] at hr
  obtain ⟨i, hi, hri⟩ := hr
  cases hp : i.path with
  | none =>
    rw [hp] at hri
    simp at hri
  | some p =>
    rw [hp] at hri
    simp only [List.mem_flatMap, List.mem_filterMap] at hri
    obtain ⟨d, _, u, _, hru⟩ := hri
    by_cases hc : i.presentationUniqueKey = canonicalizeKey d.key ∧ d.userId = u.internalId
    · rw [if_pos hc] at hru
      refine ⟨i, hi, ?_⟩
      rw [hp, ← Option.some.inj hru]
    · rw [if_neg hc] at hru
      exact absurd hru (by simp)

/-- Witness for C7: the origin entry of a concrete extracted record. -/
theorem c7_nonnull_path_origin_witness :
    ∃ e, e ∈ ([⟨['E'], some ['/', 'p'], ['k']⟩] : List CatalogEntry)
      ∧ e.path = some ['/', 'p'] :=
  c7_nonnull_path_origin
    ⟨[⟨['E'], some ['/', 'p'], ['k']⟩], [⟨['k'], 7, 5, ['t']⟩], [⟨7, ['u']⟩]⟩
    ⟨['E'], ['/', 'p'], 5, ['t'], ['u'], ['k']⟩ (by decide)

/-- Claim C8 (counterexample): with two distinct destination catalog entries
recorded under the same path, the resolver does not report an error: it
silently returns the first matching row's fingerprint. -/
theorem c8_counterexample :
    get_new_presentation_key
        [⟨['A'], some ['/', 'p'], ['1']⟩, ⟨['B'], some ['/', 'p'], ['2']⟩] ['/', 'p']
      = some ['1']
    ∧ (⟨['A'], some ['/', 'p'], ['1']⟩ : CatalogEntry) ≠ ⟨['B'], some ['/', 'p'], ['2']⟩ := by
  refine ⟨by decide, by decide⟩

/-- Claim C8 (amended): when one or more destination catalog entries match the
translated path, `get_new_presentation_key` silently returns the fingerprint of
the first matching row (`fetchone()`), regardless of any further matching rows;
no error is reported. -/
theorem c8_first_match_silent (pre post : List CatalogEntry) (e : CatalogEntry) (p : Str)
    (he : e.path = some p) (hpre : ∀ x ∈ pre, x.path ≠ some p) :
    get_new_presentation_key (pre ++ e :: post) p = some e.presentationUniqueKey := by
  induction pre with
  | nil =>
    rw [List.nil_append, get_new_presentation_key,
      List.find?_cons_of_pos _ (by simp [he])]
    rfl
  | cons x pre ih =>
    have hx : x.path ≠ some p := hpre x (by simp)
    have ih2 := ih fun y hy => hpre y (List.mem_cons_of_mem x hy)
    rw [get_new_presentation_key] at ih2
    rw [List.cons_append, get_new_presentation_key,
      List.find?_cons_of_neg _ (by simp [hx])]
    exact ih2

/-- Witness for C8: with a duplicate-path catalog, the first row's fingerprint
is returned. -/
theorem c8_first_match_silent_witness :
    get_new_presentation_key ([] ++ (⟨['A'], some ['/', 'q'], ['1']⟩ : CatalogEntry)
        :: [⟨['B'], some ['/', 'q'], ['2']⟩]) ['/', 'q'] = some ['1'] :=
  c8_first_match_silent [] [⟨['B'], some ['/', 'q'], ['2']⟩]
    ⟨['A'], some ['/', 'q'], ['1']⟩ ['/', 'q'] (by decide) (by decide)

/-- Claim C9 (counterexample): the importer maintains no skip counter: its
run-end summary reports only the migrated count.  A run whose only record is
skipped (unknown username) is observationally identical — final store and
run-end summary — to a run over an empty artifact, so no skip count is
reported. -/
theorem c9_counterexample :
    runSummary (get_user_map []) [] [⟨['n'], ['p'], 0, ['t'], ['u'], ['k']⟩] (fun _ => none)
      = runSummary (get_user_map []) [] [] (fun _ => none) := rfl

/-- Claim C9 (amended): a per-record skip (unknown username or unresolvable
fingerprint, i.e. `recordWrite` yields no write) leaves the destination store
unchanged and does not increment the migrated count; the skip is reported only
as a per-record message, and the run-end summary carries only the migrated
count. -/
theorem c9_skip_leaves_run_unchanged (um : Str → Option Str) (cat : List CatalogEntry)
    (r : WatchRecord) (rs : List WatchRecord) (s : DestStore)
    (h : recordWrite um cat r = none) :
    runSummary um cat (r :: rs) s = runSummary um cat rs s := by
  simp [runSummary, load, writesOf, List.filterMap_cons, h]

/-- Witness for C9: a concrete skipped record (user unknown in an empty
destination user table) changes nothing in the run outcome. -/
theorem c9_skip_leaves_run_unchanged_witness :
    recordWrite (get_user_map []) [] ⟨['n'], ['p'], 0, ['t'], ['u'], ['k']⟩ = none
    ∧ runSummary (get_user_map []) [] [⟨['n'], ['p'], 0, ['t'], ['u'], ['k']⟩] (fun _ => none)
        = runSummary (get_user_map []) [] [] (fun _ => none) :=
  ⟨rfl, c9_skip_leaves_run_unchanged (get_user_map []) []
    ⟨['n'], ['p'], 0, ['t'], ['u'], ['k']⟩ [] (fun _ => none) rfl⟩
